import Mathlib

/-!
Verification of the cosmetic interpreter core of `app.py`: the tokenizer
(`CosmeticsTokenizer`), the parser (`CosmeticsParser`) and the stateful
executor (`CosmeticsExecutor`) with its outfit-matching algorithm.

Modelling conventions:
* Python strings are `String`; Python's `str.lower`, `str.strip`,
  `str.startswith` and slicing are modelled by explicit functions over the
  character list `String.data`, so every definition evaluates by kernel
  reduction.
* Python sets of strings (the session inventory, the transient
  `items_set`/`colors_set` differences) are modelled as lists observed only
  through membership and emptiness; the inventory is kept duplicate-free by
  the operations themselves, mirroring set insertion.
* Raised Python exceptions are `Except.error` values: `ParseError` carries
  its message, and executor-level failures are the `ExecError` type
  (`ExecutionError`, plus the `IndexError` Python would raise on `args[0]`
  for an empty argument list).
* Python truthiness tests on `self.theme` (`if not self.theme`) are modelled
  by matching `Option String` and additionally testing for the empty string,
  exactly as Python treats `None` and `""` as falsy.
* UI-only fields (`image_base_path`) and the Firebase/Streamlit collaborators
  are outside the core and are not modelled.
-/

/-- Models Python `str.lower()`: character-wise ASCII lowering, applied to the
character list underlying the string. -/
def lower (s : String) : String := ⟨s.data.map Char.toLower⟩

/-- Models Python `str.strip()`: remove leading and trailing whitespace. -/
def strip (s : String) : String :=
  ⟨((s.data.dropWhile Char.isWhitespace).reverse.dropWhile Char.isWhitespace).reverse⟩

/-- Models Python slicing `s[n:]`: drop the first `n` characters. -/
def dropChars (s : String) (n : Nat) : String := ⟨s.data.drop n⟩

/-- Character-list version of the prefix test backing `startswith`. -/
def startsWithChars : List Char → List Char → Bool
  | _, [] => true
  | [], _ :: _ => false
  | c :: cs, d :: ds => c == d && startsWithChars cs ds

/-- Models Python `str.startswith(p)`. -/
def startswith (s p : String) : Bool := startsWithChars s.data p.data

/-- The `TokenType` of `app.py`. -/
inductive TokenType where
  | COMMAND
  | STRING_LITERAL
  | EOF
deriving DecidableEq, Repr

/-- The `Token` dataclass: kind, text and position. -/
structure Token where
  type : TokenType
  value : String
  position : Nat
deriving DecidableEq, Repr

/-- The `ASTNode` dataclass: the parsed command record. -/
structure ASTNode where
  command : String
  arguments : List String
deriving DecidableEq, Repr

namespace CosmeticsTokenizer

/-- The keys of `CosmeticsTokenizer.COMMANDS`, in dictionary insertion
order: the fixed command vocabulary. -/
def COMMANDS : List String :=
  ["apply theme", "add item", "remove item", "clear inventory",
   "add item list", "color palette", "assemble cosmetic",
   "register", "login", "logout", "exit"]

/-- The `sorted(self.COMMANDS.keys(), key=len, reverse=True)`: the vocabulary
sorted by phrase length, longest first (Python's sort is stable, so phrases
of equal length keep their insertion order). -/
def commandsByLength : List String :=
  ["assemble cosmetic", "clear inventory", "add item list", "color palette",
   "apply theme", "remove item", "add item", "register", "logout", "login",
   "exit"]

/-- The `_match_command`: the first — hence longest — vocabulary phrase that is a
prefix of the lower-cased input, if any. The caller turns the result into a
`COMMAND` token at position 0 and records `position = len(cmd)`. -/
def matchCommand (input : String) : Option String :=
  commandsByLength.find? (fun cmd => startswith (lower input) cmd)

/-- The character-scanning loop of `_extract_string_literals`, one character
per step. `i` is the current index in the scanned text, and the last argument
is the scanning state: `none` outside quotes, `some (start, acc)` inside a
quoted segment opened at index `start` with content `acc` so far. Reaching
the end of the text while inside quotes is the `break` on an unterminated
quote: nothing further is emitted. -/
def extractStringLiteralsAux (pos : Nat) :
    List Char → Nat → Option (Nat × List Char) → List Token
  | [], _, _ => []
  | c :: rest, i, none =>
    if c = '"' then extractStringLiteralsAux pos rest (i + 1) (some (i, []))
    else extractStringLiteralsAux pos rest (i + 1) none
  | c :: rest, i, some (start, acc) =>
    if c = '"' then
      { type := TokenType.STRING_LITERAL, value := ⟨acc⟩, position := pos + start } ::
        extractStringLiteralsAux pos rest (i + 1) none
    else extractStringLiteralsAux pos rest (i + 1) (some (start, acc ++ [c]))

/-- The `_extract_string_literals`: scan `self.input[self.position:].strip()` for
double-quoted segments; `pos` is `self.position` (the matched command's
length). -/
def extractStringLiterals (pos : Nat) (remainder : String) : List Token :=
  extractStringLiteralsAux pos (strip remainder).data 0 none

/-- The `tokenize`: strip the input, try to match a command phrase, extract
quoted literals after it, and always append the `EOF` token (whose position
is `self.position`: the command length when one matched, otherwise 0). -/
def tokenize (inputText : String) : List Token :=
  let input := strip inputText
  match matchCommand input with
  | some cmd =>
    { type := TokenType.COMMAND, value := cmd, position := 0 } ::
      (extractStringLiterals cmd.length (dropChars input cmd.length) ++
        [{ type := TokenType.EOF, value := "", position := cmd.length }])
  | none => [{ type := TokenType.EOF, value := "", position := 0 }]

end CosmeticsTokenizer

namespace CosmeticsParser

/-- The `CosmeticsParser.COMMAND_RULES`: the arity table, `(min, max)` per
command, in dictionary insertion order. -/
def COMMAND_RULES : List (String × Nat × Nat) :=
  [("apply theme", 1, 1), ("add item", 1, 1), ("remove item", 1, 1),
   ("clear inventory", 0, 0), ("add item list", 1, 99),
   ("color palette", 1, 99), ("assemble cosmetic", 0, 0),
   ("register", 2, 2), ("login", 1, 1), ("logout", 0, 0), ("exit", 0, 0)]

/-- Dictionary lookup in `COMMAND_RULES` (the keys are distinct). -/
def rulesFor (cmd : String) : Option (Nat × Nat) :=
  (COMMAND_RULES.find? (fun r => r.1 == cmd)).map (fun r => r.2)

/-- The `parse`: require a leading `COMMAND` token, require the command to be in
the arity table, collect the consecutive `STRING_LITERAL` tokens that follow,
and check the count against the command's `[min, max]` bound. A raised
`ParseError` is the `Except.error` case, carrying the Python message. -/
def parse (tokens : List Token) : Except String ASTNode :=
  match tokens with
  | [] => .error "Expected a command at the start."
  | t0 :: rest =>
    if t0.type ≠ TokenType.COMMAND then .error "Expected a command at the start."
    else
      match rulesFor t0.value with
      | none => .error ("Unknown command: " ++ t0.value)
      | some (min_a, max_a) =>
        let args := (rest.takeWhile (fun t => t.type == TokenType.STRING_LITERAL)).map
          (fun t => t.value)
        if min_a ≤ args.length ∧ args.length ≤ max_a then
          .ok { command := t0.value, arguments := args }
        else
          .error (t0.value ++ " expects " ++ toString min_a ++ "–" ++ toString max_a ++
            " quoted argument(s). Got " ++ toString args.length ++ ".")

end CosmeticsParser

/-- The `CosmeticOutfit` dataclass (catalog record). -/
structure CosmeticOutfit where
  name : String
  theme : String
  items : List String
  colors : List String
  image : String
  steps : List String
deriving DecidableEq, Repr

/-- The `OutfitMatch` dataclass: an outfit with its missing-items and
missing-colors difference sets (modelled as lists, observed through
emptiness). -/
structure OutfitMatch where
  outfit : CosmeticOutfit
  missing_items : List String
  missing_colors : List String
deriving DecidableEq, Repr

/-- The mutable session state owned by `CosmeticsExecutor`: the injected
catalog plus theme, inventory (a Python set, modelled as a duplicate-free
list) and palette. -/
structure CosmeticsExecutor where
  outfits : List CosmeticOutfit
  theme : Option String
  inventory : List String
  palette : List String
deriving DecidableEq, Repr

/-- Executor-level raised exceptions. -/
inductive ExecError where
  /-- The `ExecutionError`, raised at the end of `execute`'s dispatch chain. -/
  | executionError (msg : String)
  /-- The `IndexError` Python raises for `args[0]` on an empty list. -/
  | indexError
deriving DecidableEq, Repr

/-- The `CosmeticsExecutor.__init__`: fresh session over an injected catalog. -/
def initExecutor (cosmeticsLibrary : List CosmeticOutfit) : CosmeticsExecutor :=
  { outfits := cosmeticsLibrary, theme := none, inventory := [], palette := [] }

namespace CosmeticsExecutor

/-- The `_apply_theme`: store the lower-cased theme, confirm with original case. -/
def applyTheme (ex : CosmeticsExecutor) (theme : String) :
    String × CosmeticsExecutor :=
  ("✓ Theme applied: " ++ theme, { ex with theme := some (lower theme) })

/-- The `_add_item`: warn (and do nothing) on a duplicate, otherwise insert the
lower-cased item into the inventory set. -/
def addItem (ex : CosmeticsExecutor) (item : String) :
    String × CosmeticsExecutor :=
  let item_l := lower item
  if ex.inventory.contains item_l then
    ("⚠ Item '" ++ item ++ "' is already in inventory", ex)
  else
    ("✓ Added item: " ++ item, { ex with inventory := ex.inventory ++ [item_l] })

/-- The `_remove_item`: warn (and do nothing) when absent, otherwise remove. -/
def removeItem (ex : CosmeticsExecutor) (item : String) :
    String × CosmeticsExecutor :=
  let item_l := lower item
  if !ex.inventory.contains item_l then
    ("⚠ Item '" ++ item ++ "' not in inventory", ex)
  else
    ("✓ Removed item: " ++ item, { ex with inventory := ex.inventory.erase item_l })

/-- The `_clear_inventory`. -/
def clearInventory (ex : CosmeticsExecutor) : String × CosmeticsExecutor :=
  ("✓ Inventory cleared", { ex with inventory := [] })

/-- The loop of `_add_item_list`: insert each not-yet-present item
(lower-cased) and count the newly added ones. -/
def addItemListAux (inventory : List String) (added : Nat) :
    List String → List String × Nat
  | [] => (inventory, added)
  | it :: rest =>
    if inventory.contains (lower it) then addItemListAux inventory added rest
    else addItemListAux (inventory ++ [lower it]) (added + 1) rest

/-- The `_add_item_list`. -/
def addItemList (ex : CosmeticsExecutor) (items : List String) :
    String × CosmeticsExecutor :=
  let r := addItemListAux ex.inventory 0 items
  ("✓ Added " ++ toString r.2 ++ " items", { ex with inventory := r.1 })

/-- The `_set_color_palette`: replace the palette by the lower-cased colors,
preserving the given order (no deduplication). -/
def setColorPalette (ex : CosmeticsExecutor) (colors : List String) :
    String × CosmeticsExecutor :=
  let pal := colors.map lower
  ("✓ Color palette set: " ++ String.intercalate ", " pal, { ex with palette := pal })

/-- The `items_set - inv` of the matching loop: the outfit's lower-cased items
that are not in the inventory (a Python set difference, modelled as a
filtered list observed through emptiness and membership). -/
def missingItems (inventory : List String) (o : CosmeticOutfit) : List String :=
  (o.items.map lower).filter (fun x => !inventory.contains x)

/-- The `set() if pal is None else colors_set - pal`: an empty palette (Python
falsy, hence `pal is None`) imposes no color constraint. -/
def missingColors (palette : List String) (o : CosmeticOutfit) : List String :=
  if palette.isEmpty then []
  else (o.colors.map lower).filter (fun x => !palette.contains x)

/-- The `_assemble_cosmetic`: precondition checks (Python-falsy theme, empty
inventory, no outfit of the session theme), then classify each theme outfit
as exact or near and report the counts, exact matches first. Pure: the
session state is not touched. -/
def assembleCosmetic (ex : CosmeticsExecutor) : String :=
  match ex.theme with
  | none => "✗ Error: No theme set. Use 'apply theme' first."
  | some t =>
    if t = "" then "✗ Error: No theme set. Use 'apply theme' first."
    else if ex.inventory.isEmpty then "✗ Error: Inventory is empty. Add items first."
    else
      let theme_outfits := ex.outfits.filter (fun o => lower o.theme == t)
      if theme_outfits.isEmpty then
        "✗ Error: No outfits available for theme '" ++ t ++ "'"
      else
        let ms := theme_outfits.map (fun o =>
          OutfitMatch.mk o (missingItems ex.inventory o) (missingColors ex.palette o))
        let pr := ms.partition (fun m => m.missing_items.isEmpty && m.missing_colors.isEmpty)
        if !pr.1.isEmpty then
          "✓ Assembled! Found " ++ toString pr.1.length ++ " exact match(es)."
        else if !pr.2.isEmpty then
          "~ Assembled partial: " ++ toString pr.2.length ++ " near match(es)."
        else "✗ No matches found for current theme and inventory."

/-- The `get_matching_outfits`: the outfits (in catalog order) whose lowered
theme equals the session theme, with no missing item and no missing color;
empty list when the theme is Python-falsy. -/
def getMatchingOutfits (ex : CosmeticsExecutor) : List CosmeticOutfit :=
  match ex.theme with
  | none => []
  | some t =>
    if t = "" then []
    else
      ex.outfits.filter (fun o =>
        lower o.theme == t && (missingItems ex.inventory o).isEmpty &&
          (missingColors ex.palette o).isEmpty)

/-- The `execute`: string-keyed dispatch over the seven handled commands;
anything else raises `ExecutionError`. -/
def execute (ex : CosmeticsExecutor) (ast : ASTNode) :
    Except ExecError (String × CosmeticsExecutor) :=
  let cmd := ast.command
  let args := ast.arguments
  if cmd = "apply theme" then
    match args with
    | a :: _ => .ok (ex.applyTheme a)
    | [] => .error .indexError
  else if cmd = "add item" then
    match args with
    | a :: _ => .ok (ex.addItem a)
    | [] => .error .indexError
  else if cmd = "remove item" then
    match args with
    | a :: _ => .ok (ex.removeItem a)
    | [] => .error .indexError
  else if cmd = "clear inventory" then .ok ex.clearInventory
  else if cmd = "add item list" then .ok (ex.addItemList args)
  else if cmd = "color palette" then .ok (ex.setColorPalette args)
  else if cmd = "assemble cosmetic" then .ok (ex.assembleCosmetic, ex)
  else .error (.executionError ("Unknown command: " ++ cmd))

/-- One executed command's effect on the session: the new state on success,
the unchanged state when `execute` raises (a raised error aborts the command
before any mutation). -/
def stepCommand (ex : CosmeticsExecutor) (a : ASTNode) : CosmeticsExecutor :=
  match execute ex a with
  | .ok (_, s2) => s2
  | .error _ => ex

/-- Run a sequence of command records through `execute`. -/
def runCommands (ex : CosmeticsExecutor) (cmds : List ASTNode) : CosmeticsExecutor :=
  cmds.foldl stepCommand ex

end CosmeticsExecutor

/-- The seven commands that have a handler in `execute`'s dispatch chain. -/
def dispatchTable : List String :=
  ["apply theme", "add item", "remove item", "clear inventory",
   "add item list", "color palette", "assemble cosmetic"]

/-- The `theme_outfits`: the catalog outfits whose lowered theme equals `t`. -/
def themeOutfits (ex : CosmeticsExecutor) (t : String) : List CosmeticOutfit :=
  ex.outfits.filter (fun o => lower o.theme == t)

/-- The matching loop's exact classification: both difference sets empty. -/
def isExactFor (ex : CosmeticsExecutor) (o : CosmeticOutfit) : Bool :=
  (CosmeticsExecutor.missingItems ex.inventory o).isEmpty &&
    (CosmeticsExecutor.missingColors ex.palette o).isEmpty

/-- Stated from the specification's words, for comparison with
`getMatchingOutfits`: the outfits whose theme case-insensitively equals the
session theme, whose lower-cased items all lie in the inventory, and — when
the palette is non-empty — whose lower-cased colors all lie in the palette,
in catalog order. -/
def specMatchingOutfits (ex : CosmeticsExecutor) (t : String) : List CosmeticOutfit :=
  ex.outfits.filter (fun o =>
    lower o.theme == lower t &&
    o.items.all (fun x => ex.inventory.contains (lower x)) &&
    (ex.palette.isEmpty || o.colors.all (fun x => ex.palette.contains (lower x))))

/-- A fully quoted text: each segment is quote-free junk followed by a
quote-free literal wrapped in double quotes. Used to state the unterminated
quote claim. -/
def renderQuoted : List (List Char × List Char) → List Char
  | [] => []
  | (junk, lit) :: rest => junk ++ '"' :: (lit ++ '"' :: renderQuoted rest)

/-! ## Shared lemmas -/

/-- ASCII lowering is idempotent on characters. -/
theorem char_toLower_toLower (c : Char) : c.toLower.toLower = c.toLower := by
  simp only [Char.toLower]
  split
  · rename_i h
    obtain ⟨h1, h2⟩ := h
    obtain ⟨n, hn⟩ : ∃ n, c.toNat = n := ⟨_, rfl⟩
    rw [hn] at h1 h2 ⊢
    interval_cases n <;> decide
  · rfl

/-- Idempotence of `lower`. -/
theorem lower_lower (s : String) : lower (lower s) = lower s := by
  simp only [lower, List.map_map]
  congr 1
  apply List.map_congr_left
  intro c _
  exact char_toLower_toLower c

/-- Membership: `List.contains` agrees with `Mem` for strings. -/
theorem contains_iff_mem (l : List String) (a : String) :
    l.contains a = true ↔ a ∈ l := List.elem_iff

/-! ## C10 — command recognition needs no separator after the phrase -/

/-- C10: command recognition only requires the lower-cased, trimmed input to
begin with a vocabulary phrase; no separator is needed. `exitnow` yields the
Command token `exit`, and `add items "x"` (which begins with `add item`
followed directly by the letter `s`) yields the Command token `add item` and
literal extraction continues right after the phrase, finding `"x"`. -/
theorem tokenize_no_separator_required :
    CosmeticsTokenizer.tokenize "exitnow" =
      [⟨TokenType.COMMAND, "exit", 0⟩, ⟨TokenType.EOF, "", 4⟩] ∧
    CosmeticsTokenizer.tokenize "add items \"x\"" =
      [⟨TokenType.COMMAND, "add item", 0⟩, ⟨TokenType.STRING_LITERAL, "x", 10⟩,
       ⟨TokenType.EOF, "", 8⟩] := by
  constructor <;> rfl

/-! ## C1 — `execute` on parser-validated commands -/

/-- C1 counterexample: `register` with two arguments is parser-validated
(it is in the arity table with bound `[2, 2]`), yet `execute` raises
`ExecutionError` for it, because `register` has no handler in the dispatch
chain. -/
theorem execute_raises_for_parser_validated_register :
    CosmeticsParser.parse
        [⟨TokenType.COMMAND, "register", 0⟩, ⟨TokenType.STRING_LITERAL, "u", 9⟩,
         ⟨TokenType.STRING_LITERAL, "p", 13⟩, ⟨TokenType.EOF, "", 8⟩] =
      Except.ok ⟨"register", ["u", "p"]⟩ ∧
    CosmeticsExecutor.execute (initExecutor []) ⟨"register", ["u", "p"]⟩ =
      Except.error (ExecError.executionError "Unknown command: register") := by
  constructor <;> rfl

/-! ## C2 — the palette is not duplicate-free -/

/-- C2 counterexample: executing `color palette "red" "Red"` stores the
palette `["red", "red"]`, which contains a duplicate entry — the executor
lower-cases palette entries but never deduplicates them. -/
theorem palette_stores_duplicates :
    (CosmeticsExecutor.runCommands (initExecutor [])
        [⟨"color palette", ["red", "Red"]⟩]).palette = ["red", "red"] ∧
    ¬ (CosmeticsExecutor.runCommands (initExecutor [])
        [⟨"color palette", ["red", "Red"]⟩]).palette.Nodup := by
  constructor
  · rfl
  · decide

/-! ## C6 — `get_matching_outfits` and the Python-falsy empty theme -/

/-- C6 counterexample: with session theme `""` (reachable via
`apply theme ""`) and a catalog outfit whose theme is also `""`, the outfit
matches the claim's conditions (equal themes, items and colors trivially
covered), yet `get_matching_outfits` returns the empty list because Python
treats the empty-string theme as falsy. -/
theorem getMatchingOutfits_empty_theme_cex :
    CosmeticsExecutor.getMatchingOutfits
        { outfits := [⟨"n", "", [], [], "", []⟩], theme := some "",
          inventory := [], palette := [] } = [] ∧
    specMatchingOutfits
        { outfits := [⟨"n", "", [], [], "", []⟩], theme := some "",
          inventory := [], palette := [] } "" = [⟨"n", "", [], [], "", []⟩] := by
  constructor <;> rfl

/-! ## C9 — `assemble cosmetic` never mutates and never raises -/

/-- C9: executing `assemble cosmetic` always returns an ordinary result
message (soft failures included — no theme, empty inventory, no outfits for
the theme, zero matches) and leaves the session state (theme, inventory,
palette, catalog) exactly unchanged. -/
theorem assemble_cosmetic_pure (ex : CosmeticsExecutor) :
    ∃ msg, CosmeticsExecutor.execute ex ⟨"assemble cosmetic", []⟩ =
      Except.ok (msg, ex) := ⟨ex.assembleCosmetic, rfl⟩

open CosmeticsTokenizer CosmeticsParser CosmeticsExecutor

/-! ## C5 — the tokenizer matches the longest command phrase -/

/-- The `commandsByLength` is sorted by length, longest first. -/
theorem commandsByLength_sorted :
    commandsByLength.Pairwise (fun a b => b.length ≤ a.length) := by decide

/-- The `commandsByLength` is a permutation of the vocabulary `COMMANDS`. -/
theorem commandsByLength_perm : commandsByLength.Perm COMMANDS := by decide

/-- The `commandsByLength` has the same members as the vocabulary `COMMANDS`. -/
theorem mem_commandsByLength_iff (c : String) :
    c ∈ commandsByLength ↔ c ∈ COMMANDS := commandsByLength_perm.mem_iff

/-- On a list sorted by length (longest first), `find?` returns a match of
maximal length. -/
theorem find?_longest {p : String → Bool} :
    ∀ {l : List String}, l.Pairwise (fun a b => b.length ≤ a.length) →
      ∀ {res : String}, l.find? p = some res →
        ∀ c ∈ l, p c = true → c.length ≤ res.length := by
  intro l
  induction l with
  | nil => intro _ res h; simp [List.find?] at h
  | cons a l ih =>
    intro hp res hfind c hc hpc
    rcases List.pairwise_cons.mp hp with ⟨ha, hl⟩
    by_cases hpa : p a = true
    · rw [List.find?_cons_of_pos _ hpa] at hfind
      injection hfind with hres
      rcases List.mem_cons.mp hc with h | h
      · subst h; subst hres; exact Nat.le_refl _
      · subst hres; exact ha c h
    · rw [List.find?_cons_of_neg _ hpa] at hfind
      rcases List.mem_cons.mp hc with h | h
      · subst h; exact absurd hpc hpa
      · exact ih hl hfind c h hpc

/-- Unfolding `tokenize` when no command phrase matches. -/
theorem tokenize_of_matchCommand_none {text : String}
    (h : matchCommand (strip text) = none) :
    tokenize text = [⟨TokenType.EOF, "", 0⟩] := by
  simp only [tokenize, h]

/-- Unfolding `tokenize` when a command phrase matches. -/
theorem tokenize_of_matchCommand_some {text res : String}
    (h : matchCommand (strip text) = some res) :
    tokenize text = ⟨TokenType.COMMAND, res, 0⟩ ::
      (extractStringLiterals res.length (dropChars (strip text) res.length) ++
        [⟨TokenType.EOF, "", res.length⟩]) := by
  simp only [tokenize, h]

/-- C5: tokenization is total; when some vocabulary phrase is a
case-insensitive prefix of the trimmed input, the produced Command token
(the head of the token list) carries a vocabulary phrase that is a prefix of
maximal length (so an input beginning with `add item list` is never
tokenized as `add item`); when no phrase is a prefix, no Command token and
no string literals are produced; and the token list always ends with the
End token. -/
theorem tokenize_longest_command_match (text : String) :
    (∃ n, (tokenize text).getLast? = some ⟨TokenType.EOF, "", n⟩) ∧
    (∀ c ∈ COMMANDS, startswith (lower (strip text)) c = true →
      ∃ res, res ∈ COMMANDS ∧ startswith (lower (strip text)) res = true ∧
        c.length ≤ res.length ∧
        (tokenize text).head? = some ⟨TokenType.COMMAND, res, 0⟩) ∧
    ((∀ c ∈ COMMANDS, startswith (lower (strip text)) c = false) →
      tokenize text = [⟨TokenType.EOF, "", 0⟩]) := by
  cases h : matchCommand (strip text) with
  | none =>
    have hall := List.find?_eq_none.mp h
    refine ⟨⟨0, ?_⟩, ?_, ?_⟩
    · rw [tokenize_of_matchCommand_none h]
      rfl
    · intro c hc hpre
      exact absurd hpre (by simpa using hall c ((mem_commandsByLength_iff c).mpr hc))
    · intro _
      exact tokenize_of_matchCommand_none h
  | some res =>
    have hmem : res ∈ COMMANDS :=
      (mem_commandsByLength_iff res).mp (List.mem_of_find?_eq_some h)
    have hpre : startswith (lower (strip text)) res = true := List.find?_some h
    have htok := tokenize_of_matchCommand_some h
    refine ⟨⟨res.length, ?_⟩, ?_, ?_⟩
    · rw [htok, List.getLast?_cons, List.getLast?_append]
      rfl
    · intro c hc hpc
      refine ⟨res, hmem, hpre, ?_, ?_⟩
      · exact find?_longest commandsByLength_sorted h c
          ((mem_commandsByLength_iff c).mpr hc) hpc
      · rw [htok]; rfl
    · intro hall
      exact absurd hpre (by simp [hall res hmem])

/-- C5 witness: on the input `ADD ITEM LIST "boots"`, the phrase `add item`
is a case-insensitive prefix of the trimmed input, so the theorem yields a
matched vocabulary phrase at least as long which heads the token list. -/
theorem tokenize_longest_command_match_witness :
    ∃ res, res ∈ COMMANDS ∧
      startswith (lower (strip "ADD ITEM LIST \"boots\"")) res = true ∧
      ("add item" : String).length ≤ res.length ∧
      (tokenize "ADD ITEM LIST \"boots\"").head? =
        some ⟨TokenType.COMMAND, res, 0⟩ :=
  (tokenize_longest_command_match "ADD ITEM LIST \"boots\"").2.1
    "add item" (by decide) (by decide)

/-! ## C8 — unterminated quotes stop literal extraction silently -/

/-- One scanning step outside quotes on a non-quote character. -/
theorem extractAux_step_none (pos : Nat) {c : Char} (hc : c ≠ '"')
    (rest : List Char) (i : Nat) :
    extractStringLiteralsAux pos (c :: rest) i none =
      extractStringLiteralsAux pos rest (i + 1) none := by
  simp [extractStringLiteralsAux, hc]

/-- One scanning step inside quotes on a non-quote character. -/
theorem extractAux_step_some (pos : Nat) {c : Char} (hc : c ≠ '"')
    (rest : List Char) (i start : Nat) (acc : List Char) :
    extractStringLiteralsAux pos (c :: rest) i (some (start, acc)) =
      extractStringLiteralsAux pos rest (i + 1) (some (start, acc ++ [c])) := by
  simp [extractStringLiteralsAux, hc]

/-- An opening quote enters the quoted state. -/
theorem extractAux_open (pos : Nat) (rest : List Char) (i : Nat) :
    extractStringLiteralsAux pos ('"' :: rest) i none =
      extractStringLiteralsAux pos rest (i + 1) (some (i, [])) := by
  simp [extractStringLiteralsAux]

/-- A closing quote emits the accumulated literal as a token. -/
theorem extractAux_close (pos : Nat) (rest : List Char) (i start : Nat)
    (acc : List Char) :
    extractStringLiteralsAux pos ('"' :: rest) i (some (start, acc)) =
      ⟨TokenType.STRING_LITERAL, ⟨acc⟩, pos + start⟩ ::
        extractStringLiteralsAux pos rest (i + 1) none := by
  simp [extractStringLiteralsAux]

/-- Quote-free text is skipped by the scanning loop outside quotes. -/
theorem extractAux_skip (pos : Nat) (junk : List Char) (hj : '"' ∉ junk)
    (rest : List Char) :
    ∀ i, extractStringLiteralsAux pos (junk ++ rest) i none =
      extractStringLiteralsAux pos rest (i + junk.length) none := by
  induction junk with
  | nil => intro i; rfl
  | cons c junk ih =>
    intro i
    have hc : c ≠ '"' := fun h => hj (h ▸ List.mem_cons_self c junk)
    have hj' : '"' ∉ junk := fun h => hj (List.mem_cons_of_mem c h)
    rw [List.cons_append, extractAux_step_none pos hc _ i, ih hj']
    congr 1
    simp [List.length_cons]
    omega

/-- Inside quotes, a quote-free literal followed by a closing quote emits one
`STRING_LITERAL` token and resumes scanning after the closing quote. -/
theorem extractAux_scan (pos : Nat) (lit : List Char) (hl : '"' ∉ lit)
    (rest : List Char) (start : Nat) :
    ∀ i acc, extractStringLiteralsAux pos (lit ++ '"' :: rest) i (some (start, acc)) =
      ⟨TokenType.STRING_LITERAL, ⟨acc ++ lit⟩, pos + start⟩ ::
        extractStringLiteralsAux pos rest (i + lit.length + 1) none := by
  induction lit with
  | nil =>
    intro i acc
    rw [List.nil_append, extractAux_close pos rest i start acc]
    simp
  | cons c lit ih =>
    intro i acc
    have hc : c ≠ '"' := fun h => hl (h ▸ List.mem_cons_self c lit)
    have hl' : '"' ∉ lit := fun h => hl (List.mem_cons_of_mem c h)
    rw [List.cons_append, extractAux_step_some pos hc _ i start acc, ih hl']
    have h1 : acc ++ [c] ++ lit = acc ++ c :: lit := by simp
    have h2 : i + 1 + lit.length + 1 = i + (c :: lit).length + 1 := by
      simp [List.length_cons]
      omega
    rw [h1, h2]

/-- Reaching the end of the text inside quotes (the unterminated case) emits
nothing: the Python `break`. -/
theorem extractAux_unterminated (pos : Nat) (tail : List Char) (ht : '"' ∉ tail)
    (start : Nat) :
    ∀ i acc, extractStringLiteralsAux pos tail i (some (start, acc)) = [] := by
  induction tail with
  | nil => intro i acc; rfl
  | cons c tail ih =>
    intro i acc
    have hc : c ≠ '"' := fun h => ht (h ▸ List.mem_cons_self c tail)
    have ht' : '"' ∉ tail := fun h => ht (List.mem_cons_of_mem c h)
    rw [extractAux_step_some pos hc _ i start acc]
    exact ih ht' _ _

/-- The generalized scan over well-quoted segments followed by an
unterminated quote. -/
theorem extractAux_quoted_then_unterminated (pos : Nat)
    (segs : List (List Char × List Char)) (junk tail : List Char)
    (hsegs : ∀ p ∈ segs, '"' ∉ p.1 ∧ '"' ∉ p.2)
    (hjunk : '"' ∉ junk) (htail : '"' ∉ tail) :
    ∀ i, (extractStringLiteralsAux pos
        (renderQuoted segs ++ (junk ++ '"' :: tail)) i none).map
          (fun t => (t.type, t.value)) =
      segs.map (fun p => (TokenType.STRING_LITERAL, (⟨p.2⟩ : String))) := by
  induction segs with
  | nil =>
    intro i
    rw [renderQuoted, List.nil_append, extractAux_skip pos junk hjunk _ i,
      extractAux_open, extractAux_unterminated pos tail htail]
    rfl
  | cons p segs ih =>
    intro i
    obtain ⟨j, l⟩ := p
    have hj : '"' ∉ j := (hsegs (j, l) (List.mem_cons_self _ _)).1
    have hl : '"' ∉ l := (hsegs (j, l) (List.mem_cons_self _ _)).2
    have hsegs' : ∀ p ∈ segs, '"' ∉ p.1 ∧ '"' ∉ p.2 :=
      fun p hp => hsegs p (List.mem_cons_of_mem _ hp)
    have hshape : renderQuoted ((j, l) :: segs) ++ (junk ++ '"' :: tail) =
        j ++ ('"' :: (l ++ '"' :: (renderQuoted segs ++ (junk ++ '"' :: tail)))) := by
      simp [renderQuoted, List.append_assoc]
    rw [hshape, extractAux_skip pos j hj _ i, extractAux_open,
      extractAux_scan pos l hl _ _ _ _, List.map_cons, ih hsegs' _, List.map_cons]
    simp

/-- C8: when the remainder after the command phrase consists of complete
quoted segments followed by an opening quote that is never closed, literal
extraction silently stops at that opening quote: the complete segments
become `STRING_LITERAL` tokens in left-to-right order, and the text after
the unterminated quote produces no tokens and no error. -/
theorem extract_literals_unterminated_quote (pos : Nat) (remainder : String)
    (segs : List (List Char × List Char)) (junk tail : List Char)
    (hrem : (strip remainder).data = renderQuoted segs ++ (junk ++ '"' :: tail))
    (hsegs : ∀ p ∈ segs, '"' ∉ p.1 ∧ '"' ∉ p.2)
    (hjunk : '"' ∉ junk) (htail : '"' ∉ tail) :
    (extractStringLiterals pos remainder).map (fun t => (t.type, t.value)) =
      segs.map (fun p => (TokenType.STRING_LITERAL, (⟨p.2⟩ : String))) := by
  rw [extractStringLiterals, hrem]
  exact extractAux_quoted_then_unterminated pos segs junk tail hsegs hjunk htail 0

/-- C8 witness: on the remainder `"a" "b` (closing quote of `b` missing),
extraction yields exactly the literal `a` and drops everything from the
unterminated quote on. -/
theorem extract_literals_unterminated_quote_witness :
    (extractStringLiterals 9 "\"a\" \"b").map (fun t => (t.type, t.value)) =
      [(TokenType.STRING_LITERAL, "a")] :=
  (extract_literals_unterminated_quote 9 "\"a\" \"b"
      ([([], ['a'])] : List (List Char × List Char)) [' '] ['b']
      (by decide) (by decide) (by decide) (by decide)).trans (by decide)

/-! ## C3 — parse succeeds exactly within the arity bound -/

/-- Collecting consecutive literals from `lits ++ [end]` yields `lits` when
every element of `lits` is a literal and the end token is not. -/
theorem takeWhile_literals (lits : List Token)
    (hl : ∀ t ∈ lits, t.type = TokenType.STRING_LITERAL) (e : Token)
    (he : e.type ≠ TokenType.STRING_LITERAL) :
    (lits ++ [e]).takeWhile (fun t => t.type == TokenType.STRING_LITERAL) = lits := by
  induction lits with
  | nil =>
    simp only [List.nil_append, List.takeWhile]
    have : (e.type == TokenType.STRING_LITERAL) = false := by
      simp [he]
    simp [this]
  | cons t lits ih =>
    have ht : (t.type == TokenType.STRING_LITERAL) = true := by
      simp [hl t (List.mem_cons_self t lits)]
    have ih' := ih (fun u hu => hl u (List.mem_cons_of_mem t hu))
    simp only [List.cons_append, List.takeWhile, ht, List.append_eq]
    rw [ih']

/-- C3: for every command `c` in the arity table with bound `[min, max]`, a
token sequence made of the Command token for `c`, `k` StringLiteral tokens
and an End token parses to the record `{command := c, arguments := the k
literals in order}` when `min ≤ k ≤ max`, and raises `ParseError` for every
`k` outside that range. -/
theorem parse_within_arity_bound (c : String) (mn mx : Nat)
    (hrule : rulesFor c = some (mn, mx)) (t0 : Token)
    (h0 : t0.type = TokenType.COMMAND) (hv : t0.value = c) (lits : List Token)
    (hl : ∀ t ∈ lits, t.type = TokenType.STRING_LITERAL) (e : Token)
    (he : e.type = TokenType.EOF) :
    (mn ≤ lits.length ∧ lits.length ≤ mx →
      parse (t0 :: (lits ++ [e])) =
        Except.ok ⟨c, lits.map (fun t => t.value)⟩) ∧
    (¬ (mn ≤ lits.length ∧ lits.length ≤ mx) →
      parse (t0 :: (lits ++ [e])) =
        Except.error (c ++ " expects " ++ toString mn ++ "–" ++ toString mx ++
          " quoted argument(s). Got " ++ toString lits.length ++ ".")) := by
  have he' : e.type ≠ TokenType.STRING_LITERAL := by
    rw [he]
    intro h
    cases h
  have htw := takeWhile_literals lits hl e he'
  have hlen : (lits.map (fun t => t.value)).length = lits.length := List.length_map _ _
  constructor <;> intro h
  · simp only [parse, h0, hv, hrule, htw, ne_eq, not_true_eq_false, if_false,
      reduceIte, hlen]
    rw [if_pos h]
  · simp only [parse, h0, hv, hrule, htw, ne_eq, not_true_eq_false, if_false,
      reduceIte, hlen]
    rw [if_neg h]

/-- C3 witness (the spec's concrete scenario 2): `register` with one quoted
argument fails to parse, since `register` requires exactly two. -/
theorem parse_within_arity_bound_witness :
    parse [⟨TokenType.COMMAND, "register", 0⟩,
           ⟨TokenType.STRING_LITERAL, "user@example.com", 9⟩,
           ⟨TokenType.EOF, "", 8⟩] =
      Except.error "register expects 2–2 quoted argument(s). Got 1." :=
  ((parse_within_arity_bound "register" 2 2 (by decide)
      ⟨TokenType.COMMAND, "register", 0⟩ rfl rfl
      [⟨TokenType.STRING_LITERAL, "user@example.com", 9⟩] (by decide)
      ⟨TokenType.EOF, "", 8⟩ rfl).2 (by decide)).trans
    (congrArg Except.error (by decide))

/-! ## C4 — assemble reports exact matches preferentially -/

/-- A list with positive length fails the `isEmpty` test. -/
theorem not_isEmpty_of_length_pos {a : Type} {l : List a} (h : 0 < l.length) :
    (!l.isEmpty) = true := by
  cases l with
  | nil => simp at h
  | cons x l => rfl

/-- A list of length zero passes the `isEmpty` test. -/
theorem not_not_isEmpty_of_length_eq_zero {a : Type} {l : List a}
    (h : l.length = 0) : ¬((!l.isEmpty) = true) := by
  cases l with
  | nil => simp
  | cons x l => simp at h

/-- The matching loop's partition, split into the exact and near filters over
the theme outfits. -/
theorem partition_matches_fst (ex : CosmeticsExecutor) (l : List CosmeticOutfit) :
    ((l.map (fun o =>
        OutfitMatch.mk o (missingItems ex.inventory o) (missingColors ex.palette o))).partition
      (fun m => m.missing_items.isEmpty && m.missing_colors.isEmpty)).1 =
    (l.filter (isExactFor ex)).map (fun o =>
        OutfitMatch.mk o (missingItems ex.inventory o) (missingColors ex.palette o)) := by
  rw [List.partition_eq_filter_filter]
  show List.filter _ _ = _
  rw [List.filter_map]
  rfl

/-- As `partition_matches_fst`, for the near component. -/
theorem partition_matches_snd (ex : CosmeticsExecutor) (l : List CosmeticOutfit) :
    ((l.map (fun o =>
        OutfitMatch.mk o (missingItems ex.inventory o) (missingColors ex.palette o))).partition
      (fun m => m.missing_items.isEmpty && m.missing_colors.isEmpty)).2 =
    (l.filter (fun o => !isExactFor ex o)).map (fun o =>
        OutfitMatch.mk o (missingItems ex.inventory o) (missingColors ex.palette o)) := by
  rw [List.partition_eq_filter_filter]
  show List.filter _ _ = _
  rw [List.filter_map]
  rfl

/-- C4: with a theme set (a non-empty one — Python treats `""` as unset), a
non-empty inventory and at least one catalog outfit of that theme,
`assemble cosmetic` reports the exact-match count whenever at least one
exact match exists (never a near-match count), reports the near-match count
only when there are zero exact matches and at least one near match, and
reports no matches otherwise; an outfit is exact iff both its missing-items
and missing-colors difference sets are empty. -/
theorem assemble_reports_exact_over_near (ex : CosmeticsExecutor) (t : String)
    (ht : ex.theme = some t) (hne : t ≠ "") (hinv : ex.inventory ≠ [])
    (hto : themeOutfits ex t ≠ []) :
    (∀ o, isExactFor ex o = true ↔
      (missingItems ex.inventory o = [] ∧ missingColors ex.palette o = [])) ∧
    (0 < ((themeOutfits ex t).filter (isExactFor ex)).length →
      ex.assembleCosmetic = "✓ Assembled! Found " ++
        toString ((themeOutfits ex t).filter (isExactFor ex)).length ++
        " exact match(es).") ∧
    (((themeOutfits ex t).filter (isExactFor ex)).length = 0 →
      0 < ((themeOutfits ex t).filter (fun o => !isExactFor ex o)).length →
      ex.assembleCosmetic = "~ Assembled partial: " ++
        toString ((themeOutfits ex t).filter (fun o => !isExactFor ex o)).length ++
        " near match(es).") ∧
    (((themeOutfits ex t).filter (isExactFor ex)).length = 0 →
      ((themeOutfits ex t).filter (fun o => !isExactFor ex o)).length = 0 →
      ex.assembleCosmetic = "✗ No matches found for current theme and inventory.") := by
  have hinvb : ¬(ex.inventory.isEmpty = true) := by
    rw [List.isEmpty_iff]
    exact hinv
  have htob : ¬((themeOutfits ex t).isEmpty = true) := by
    rw [List.isEmpty_iff]
    exact hto
  have hfold : ex.outfits.filter (fun o => lower o.theme == t) = themeOutfits ex t := rfl
  have hASM : ex.assembleCosmetic =
      if (!(((themeOutfits ex t).filter (isExactFor ex)).map (fun o =>
          OutfitMatch.mk o (missingItems ex.inventory o) (missingColors ex.palette o))).isEmpty) = true then
        "✓ Assembled! Found " ++
          toString (((themeOutfits ex t).filter (isExactFor ex)).map (fun o =>
            OutfitMatch.mk o (missingItems ex.inventory o) (missingColors ex.palette o))).length ++
          " exact match(es)."
      else if (!(((themeOutfits ex t).filter (fun o => !isExactFor ex o)).map (fun o =>
          OutfitMatch.mk o (missingItems ex.inventory o) (missingColors ex.palette o))).isEmpty) = true then
        "~ Assembled partial: " ++
          toString (((themeOutfits ex t).filter (fun o => !isExactFor ex o)).map (fun o =>
            OutfitMatch.mk o (missingItems ex.inventory o) (missingColors ex.palette o))).length ++
          " near match(es)."
      else "✗ No matches found for current theme and inventory." := by
    simp only [CosmeticsExecutor.assembleCosmetic, ht]
    rw [if_neg hne, if_neg hinvb, hfold, if_neg htob,
      partition_matches_fst ex (themeOutfits ex t),
      partition_matches_snd ex (themeOutfits ex t)]
  refine ⟨?_, ?_, ?_, ?_⟩
  · intro o
    simp [isExactFor, Bool.and_eq_true, List.isEmpty_iff]
  · intro hE
    have hc : (!(((themeOutfits ex t).filter (isExactFor ex)).map (fun o =>
        OutfitMatch.mk o (missingItems ex.inventory o) (missingColors ex.palette o))).isEmpty) = true :=
      not_isEmpty_of_length_pos (by rw [List.length_map]; exact hE)
    rw [hASM, if_pos hc, List.length_map]
  · intro hE hN
    have hc1 : ¬((!(((themeOutfits ex t).filter (isExactFor ex)).map (fun o =>
        OutfitMatch.mk o (missingItems ex.inventory o) (missingColors ex.palette o))).isEmpty) = true) :=
      not_not_isEmpty_of_length_eq_zero (by rw [List.length_map]; exact hE)
    have hc2 : (!(((themeOutfits ex t).filter (fun o => !isExactFor ex o)).map (fun o =>
        OutfitMatch.mk o (missingItems ex.inventory o) (missingColors ex.palette o))).isEmpty) = true :=
      not_isEmpty_of_length_pos (by rw [List.length_map]; exact hN)
    rw [hASM, if_neg hc1, if_pos hc2, List.length_map]
  · intro hE hN
    have hc1 : ¬((!(((themeOutfits ex t).filter (isExactFor ex)).map (fun o =>
        OutfitMatch.mk o (missingItems ex.inventory o) (missingColors ex.palette o))).isEmpty) = true) :=
      not_not_isEmpty_of_length_eq_zero (by rw [List.length_map]; exact hE)
    have hc2 : ¬((!(((themeOutfits ex t).filter (fun o => !isExactFor ex o)).map (fun o =>
        OutfitMatch.mk o (missingItems ex.inventory o) (missingColors ex.palette o))).isEmpty) = true) :=
      not_not_isEmpty_of_length_eq_zero (by rw [List.length_map]; exact hN)
    rw [hASM, if_neg hc1, if_neg hc2]

/-- C4 witness (the spec's concrete scenario 4): one cyberpunk outfit fully
covered by the inventory and palette — one exact match is reported. -/
theorem assemble_reports_exact_over_near_witness :
    CosmeticsExecutor.assembleCosmetic
        { outfits := [⟨"Neon Runner", "cyberpunk", ["jacket", "boots"],
            ["neon blue"], "img.png", []⟩],
          theme := some "cyberpunk", inventory := ["jacket", "boots"],
          palette := ["neon blue"] } = "✓ Assembled! Found 1 exact match(es)." := by
  exact ((assemble_reports_exact_over_near _ "cyberpunk" rfl (by decide) (by decide)
    (by decide)).2.1 (by decide)).trans (by decide)

/-! ## C6 — `get_matching_outfits` as a subset filter -/

/-- Emptiness of a lower-then-filter set difference is the `all`-subset
test. -/
theorem filter_not_contains_isEmpty (inv l : List String) :
    ((l.map lower).filter (fun x => !inv.contains x)).isEmpty =
      l.all (fun x => inv.contains (lower x)) := by
  induction l with
  | nil => rfl
  | cons a l ih =>
    simp only [List.map_cons, List.filter_cons, List.all_cons]
    cases h : inv.contains (lower a) with
    | true => simpa [h] using ih
    | false => simp [h]

/-- The `missingItems` is empty iff every (lower-cased) outfit item is in the
inventory. -/
theorem missingItems_isEmpty (inv : List String) (o : CosmeticOutfit) :
    (CosmeticsExecutor.missingItems inv o).isEmpty =
      o.items.all (fun x => inv.contains (lower x)) :=
  filter_not_contains_isEmpty inv o.items

/-- The `missingColors` is empty iff the palette is empty (no constraint) or
every (lower-cased) outfit color is in the palette. -/
theorem missingColors_isEmpty (pal : List String) (o : CosmeticOutfit) :
    (CosmeticsExecutor.missingColors pal o).isEmpty =
      (pal.isEmpty || o.colors.all (fun x => pal.contains (lower x))) := by
  unfold CosmeticsExecutor.missingColors
  cases h : pal.isEmpty with
  | true => rfl
  | false =>
    rw [Bool.false_or]
    exact filter_not_contains_isEmpty pal o.colors

/-- C6 (amended): provided the session theme is a non-empty lower-cased
string — the invariant of every reachable session — `get_matching_outfits`
returns exactly the outfits whose theme case-insensitively equals the
session theme, whose lower-cased item set is covered by the inventory and,
only when the palette is non-empty, whose lower-cased color set is covered
by the palette, in catalog order. (When the theme is unset or the empty
string it returns the empty list instead.) -/
theorem getMatchingOutfits_eq_spec (ex : CosmeticsExecutor) (t : String)
    (ht : ex.theme = some t) (hnorm : lower t = t) (hne : t ≠ "") :
    CosmeticsExecutor.getMatchingOutfits ex = specMatchingOutfits ex t := by
  simp only [CosmeticsExecutor.getMatchingOutfits, ht]
  rw [if_neg hne]
  unfold specMatchingOutfits
  apply List.filter_congr
  intro o _
  rw [hnorm, missingItems_isEmpty ex.inventory o, missingColors_isEmpty ex.palette o]

/-- C6 witness: a two-outfit catalog under theme `cyberpunk` with an empty
palette — exactly the covered cyberpunk outfit is returned. -/
theorem getMatchingOutfits_eq_spec_witness :
    CosmeticsExecutor.getMatchingOutfits
        { outfits := [⟨"Neon Runner", "cyberpunk", ["jacket", "boots"],
            ["neon blue"], "img.png", []⟩,
          ⟨"Witch", "dark fantasy", ["robe"], ["black"], "w.png", []⟩],
          theme := some "cyberpunk", inventory := ["jacket", "boots"],
          palette := [] } =
      [⟨"Neon Runner", "cyberpunk", ["jacket", "boots"], ["neon blue"],
        "img.png", []⟩] := by
  exact (getMatchingOutfits_eq_spec _ "cyberpunk" rfl (by decide)
    (by decide)).trans (by decide)

/-! ## C7 — `add item` is case-insensitively idempotent -/

/-- The `execute` on an `add item` record is the `_add_item` handler. -/
theorem execute_add_item (ex : CosmeticsExecutor) (s : String) :
    CosmeticsExecutor.execute ex ⟨"add item", [s]⟩ =
      Except.ok (ex.addItem s) := rfl

/-- C7: adding the same item twice under any casings leaves, beyond the
original state, exactly one inventory entry `lower i`; the second call
returns the already-present warning and leaves the session state unchanged;
theme, palette and catalog are untouched throughout, and a genuinely new
item grows the inventory by exactly one entry. -/
theorem add_item_idempotent (ex : CosmeticsExecutor) (i1 i2 : String)
    (h : lower i1 = lower i2) :
    ∃ m1 ex1,
      CosmeticsExecutor.execute ex ⟨"add item", [i1]⟩ = Except.ok (m1, ex1) ∧
      CosmeticsExecutor.execute ex1 ⟨"add item", [i2]⟩ =
        Except.ok ("⚠ Item '" ++ i2 ++ "' is already in inventory", ex1) ∧
      (∀ x, x ∈ ex1.inventory ↔ (x ∈ ex.inventory ∨ x = lower i1)) ∧
      ex1.theme = ex.theme ∧ ex1.palette = ex.palette ∧
      ex1.outfits = ex.outfits ∧
      (lower i1 ∉ ex.inventory → ex1.inventory.length = ex.inventory.length + 1) := by
  cases hc : ex.inventory.contains (lower i1) with
  | true =>
    have hmem : lower i1 ∈ ex.inventory := (contains_iff_mem _ _).mp hc
    refine ⟨"⚠ Item '" ++ i1 ++ "' is already in inventory", ex, ?_, ?_, ?_, rfl, rfl,
      rfl, ?_⟩
    · rw [execute_add_item]
      unfold CosmeticsExecutor.addItem
      rw [if_pos hc]
    · have hc2 : ex.inventory.contains (lower i2) = true := by rw [← h]; exact hc
      rw [execute_add_item]
      unfold CosmeticsExecutor.addItem
      rw [if_pos hc2]
    · intro x
      constructor
      · exact Or.inl
      · rintro (hx | hx)
        · exact hx
        · exact hx ▸ hmem
    · intro hno
      exact absurd hmem hno
  | false =>
    have hmem2 : (ex.inventory ++ [lower i1]).contains (lower i2) = true := by
      rw [contains_iff_mem, ← h]
      exact List.mem_append_right _ (List.mem_singleton_self _)
    refine ⟨"✓ Added item: " ++ i1,
      { ex with inventory := ex.inventory ++ [lower i1] }, ?_, ?_, ?_, rfl, rfl,
      rfl, ?_⟩
    · have hcne : ¬(ex.inventory.contains (lower i1) = true) := by
        rw [hc]; exact Bool.false_ne_true
      rw [execute_add_item]
      unfold CosmeticsExecutor.addItem
      rw [if_neg hcne]
    · rw [execute_add_item]
      unfold CosmeticsExecutor.addItem
      rw [if_pos hmem2]
    · intro x
      simp [List.mem_append, List.mem_singleton]
    · intro _
      simp [List.length_append]

/-- C7 witness: `add item "Jacket"` followed by `add item "jacket"` on a
fresh session. -/
theorem add_item_idempotent_witness :
    ∃ m1 ex1,
      CosmeticsExecutor.execute (initExecutor []) ⟨"add item", ["Jacket"]⟩ =
        Except.ok (m1, ex1) ∧
      CosmeticsExecutor.execute ex1 ⟨"add item", ["jacket"]⟩ =
        Except.ok ("⚠ Item '" ++ "jacket" ++ "' is already in inventory", ex1) ∧
      (∀ x, x ∈ ex1.inventory ↔
        (x ∈ (initExecutor []).inventory ∨ x = lower "Jacket")) ∧
      ex1.theme = (initExecutor []).theme ∧
      ex1.palette = (initExecutor []).palette ∧
      ex1.outfits = (initExecutor []).outfits ∧
      (lower "Jacket" ∉ (initExecutor []).inventory →
        ex1.inventory.length = (initExecutor []).inventory.length + 1) :=
  add_item_idempotent (initExecutor []) "Jacket" "jacket" (by decide)

/-! ## C1 (amended) — dispatch totality for handled commands -/

/-- C1 (amended): for every parser-validated command record (command in the
arity table, argument count within its bound), `execute` returns an ordinary
result when the command is one of the seven dispatched commands, and raises
`ExecutionError` exactly when the command is outside the dispatch table —
which does happen for the parser-validated commands `register`, `login`,
`logout` and `exit`. -/
theorem execute_dispatch_total (ex : CosmeticsExecutor) (ast : ASTNode)
    (mn mx : Nat) (hrule : rulesFor ast.command = some (mn, mx))
    (hk : mn ≤ ast.arguments.length ∧ ast.arguments.length ≤ mx) :
    (ast.command ∈ dispatchTable →
      ∃ r, CosmeticsExecutor.execute ex ast = Except.ok r) ∧
    (ast.command ∉ dispatchTable →
      CosmeticsExecutor.execute ex ast =
        Except.error (ExecError.executionError
          ("Unknown command: " ++ ast.command))) := by
  obtain ⟨cmd, args⟩ := ast
  simp only at hrule hk ⊢
  cases hf : COMMAND_RULES.find? (fun r => r.1 == cmd) with
  | none =>
    rw [rulesFor, hf] at hrule
    exact Option.noConfusion hrule
  | some r =>
    have hrmem := List.mem_of_find?_eq_some hf
    have hcmd : r.1 = cmd := by
      have := List.find?_some hf
      simpa using this
    rw [rulesFor, hf] at hrule
    have hr2 : r.2 = (mn, mx) := Option.some.inj hrule
    subst hcmd
    simp only [COMMAND_RULES, List.mem_cons, List.not_mem_nil, or_false] at hrmem
    rcases hrmem with h | h | h | h | h | h | h | h | h | h | h <;> subst h <;>
        simp only at hk ⊢ <;>
        injection hr2 with e1 e2 <;> subst e1 <;> subst e2 <;>
        refine ⟨fun hin => ?_, fun hout => ?_⟩
    · cases args with
      | nil => exact absurd hk.1 (by decide)
      | cons a0 rest => exact ⟨_, rfl⟩
    · exact absurd (show "apply theme" ∈ dispatchTable by decide) hout
    · cases args with
      | nil => exact absurd hk.1 (by decide)
      | cons a0 rest => exact ⟨_, rfl⟩
    · exact absurd (show "add item" ∈ dispatchTable by decide) hout
    · cases args with
      | nil => exact absurd hk.1 (by decide)
      | cons a0 rest => exact ⟨_, rfl⟩
    · exact absurd (show "remove item" ∈ dispatchTable by decide) hout
    · exact ⟨_, rfl⟩
    · exact absurd (show "clear inventory" ∈ dispatchTable by decide) hout
    · exact ⟨_, rfl⟩
    · exact absurd (show "add item list" ∈ dispatchTable by decide) hout
    · exact ⟨_, rfl⟩
    · exact absurd (show "color palette" ∈ dispatchTable by decide) hout
    · exact ⟨_, rfl⟩
    · exact absurd (show "assemble cosmetic" ∈ dispatchTable by decide) hout
    · exact absurd hin (by decide)
    · rfl
    · exact absurd hin (by decide)
    · rfl
    · exact absurd hin (by decide)
    · rfl
    · exact absurd hin (by decide)
    · rfl

/-- C1 (amended) witness: `clear inventory` with zero arguments is
parser-validated, dispatched, and returns an ordinary result. -/
theorem execute_dispatch_total_witness :
    ∃ r, CosmeticsExecutor.execute (initExecutor []) ⟨"clear inventory", []⟩ =
      Except.ok r :=
  (execute_dispatch_total (initExecutor []) ⟨"clear inventory", []⟩ 0 0
    (by decide) (by decide)).1 (by decide)

/-! ## C2 (amended) — inventory and palette normalization invariant -/

/-- Inserting a lower-cased absent entry preserves duplicate-freeness and
normalization of the inventory. -/
theorem inv_insert {inv : List String} {s : String} (hnd : inv.Nodup)
    (hlow : ∀ x ∈ inv, lower x = x) (hnm : lower s ∉ inv) :
    (inv ++ [lower s]).Nodup ∧ ∀ x ∈ inv ++ [lower s], lower x = x := by
  constructor
  · rw [List.nodup_append]
    refine ⟨hnd, List.nodup_singleton _, ?_⟩
    intro x hx hy
    rw [List.mem_singleton] at hy
    subst hy
    exact hnm hx
  · intro x hx
    rcases List.mem_append.mp hx with h | h
    · exact hlow x h
    · rw [List.mem_singleton] at h
      subst h
      exact lower_lower s

/-- The `_add_item_list` loop preserves duplicate-freeness and
normalization of the inventory. -/
theorem addItemListAux_preserves (items : List String) :
    ∀ inv added, inv.Nodup → (∀ x ∈ inv, lower x = x) →
      ((CosmeticsExecutor.addItemListAux inv added items).1.Nodup ∧
        ∀ x ∈ (CosmeticsExecutor.addItemListAux inv added items).1, lower x = x) := by
  induction items with
  | nil => intro inv added h1 h2; exact ⟨h1, h2⟩
  | cons it rest ih =>
    intro inv added h1 h2
    simp only [CosmeticsExecutor.addItemListAux]
    cases hcon : inv.contains (lower it) with
    | true =>
      rw [if_pos rfl]
      exact ih inv added h1 h2
    | false =>
      rw [if_neg Bool.false_ne_true]
      have hnm : lower it ∉ inv := by
        intro hm
        have hx := (contains_iff_mem _ _).mpr hm
        rw [hcon] at hx
        exact Bool.noConfusion hx
      obtain ⟨h1', h2'⟩ := inv_insert h1 h2 hnm
      exact ih _ _ h1' h2'

/-- One executed command preserves the session normalization invariant:
inventory duplicate-free and lower-cased, palette lower-cased. -/
theorem stepCommand_preserves_inv (ex : CosmeticsExecutor) (a : ASTNode)
    (hnd : ex.inventory.Nodup) (hlow : ∀ x ∈ ex.inventory, lower x = x)
    (hpal : ∀ x ∈ ex.palette, lower x = x) :
    (CosmeticsExecutor.stepCommand ex a).inventory.Nodup ∧
      (∀ x ∈ (CosmeticsExecutor.stepCommand ex a).inventory, lower x = x) ∧
      (∀ x ∈ (CosmeticsExecutor.stepCommand ex a).palette, lower x = x) := by
  obtain ⟨cmd, args⟩ := a
  simp only [CosmeticsExecutor.stepCommand, CosmeticsExecutor.execute]
  by_cases h1 : cmd = "apply theme"
  · rw [if_pos h1]
    cases args with
    | nil => exact ⟨hnd, hlow, hpal⟩
    | cons a0 rest => exact ⟨hnd, hlow, hpal⟩
  rw [if_neg h1]
  by_cases h2 : cmd = "add item"
  · rw [if_pos h2]
    cases args with
    | nil => exact ⟨hnd, hlow, hpal⟩
    | cons a0 rest =>
      show (ex.addItem a0).2.inventory.Nodup ∧
        (∀ x ∈ (ex.addItem a0).2.inventory, lower x = x) ∧
        (∀ x ∈ (ex.addItem a0).2.palette, lower x = x)
      simp only [CosmeticsExecutor.addItem]
      cases hcon : ex.inventory.contains (lower a0) with
      | true =>
        rw [if_pos rfl]
        exact ⟨hnd, hlow, hpal⟩
      | false =>
        rw [if_neg Bool.false_ne_true]
        have hnm : lower a0 ∉ ex.inventory := by
          intro hm
          have hx := (contains_iff_mem _ _).mpr hm
          rw [hcon] at hx
          exact Bool.noConfusion hx
        obtain ⟨h1', h2'⟩ := inv_insert hnd hlow hnm
        exact ⟨h1', h2', hpal⟩
  rw [if_neg h2]
  by_cases h3 : cmd = "remove item"
  · rw [if_pos h3]
    cases args with
    | nil => exact ⟨hnd, hlow, hpal⟩
    | cons a0 rest =>
      show (ex.removeItem a0).2.inventory.Nodup ∧
        (∀ x ∈ (ex.removeItem a0).2.inventory, lower x = x) ∧
        (∀ x ∈ (ex.removeItem a0).2.palette, lower x = x)
      simp only [CosmeticsExecutor.removeItem]
      cases hcon : ex.inventory.contains (lower a0) with
      | true =>
        rw [Bool.not_true, if_neg Bool.false_ne_true]
        refine ⟨hnd.erase _, ?_, hpal⟩
        intro x hx
        exact hlow x (List.mem_of_mem_erase hx)
      | false =>
        rw [Bool.not_false, if_pos rfl]
        exact ⟨hnd, hlow, hpal⟩
  rw [if_neg h3]
  by_cases h4 : cmd = "clear inventory"
  · rw [if_pos h4]
    refine ⟨List.nodup_nil, ?_, hpal⟩
    intro x hx
    exact absurd hx (List.not_mem_nil x)
  rw [if_neg h4]
  by_cases h5 : cmd = "add item list"
  · rw [if_pos h5]
    show (ex.addItemList args).2.inventory.Nodup ∧
      (∀ x ∈ (ex.addItemList args).2.inventory, lower x = x) ∧
      (∀ x ∈ (ex.addItemList args).2.palette, lower x = x)
    simp only [CosmeticsExecutor.addItemList]
    obtain ⟨h1', h2'⟩ := addItemListAux_preserves args ex.inventory 0 hnd hlow
    exact ⟨h1', h2', hpal⟩
  rw [if_neg h5]
  by_cases h6 : cmd = "color palette"
  · rw [if_pos h6]
    show (ex.setColorPalette args).2.inventory.Nodup ∧
      (∀ x ∈ (ex.setColorPalette args).2.inventory, lower x = x) ∧
      (∀ x ∈ (ex.setColorPalette args).2.palette, lower x = x)
    simp only [CosmeticsExecutor.setColorPalette]
    refine ⟨hnd, hlow, ?_⟩
    intro x hx
    rcases List.mem_map.mp hx with ⟨c, _, rfl⟩
    exact lower_lower c
  rw [if_neg h6]
  by_cases h7 : cmd = "assemble cosmetic"
  · rw [if_pos h7]
    exact ⟨hnd, hlow, hpal⟩
  rw [if_neg h7]
  exact ⟨hnd, hlow, hpal⟩

/-- The invariant is preserved along any command sequence. -/
theorem runCommands_preserves_inv (cmds : List ASTNode) :
    ∀ ex : CosmeticsExecutor, ex.inventory.Nodup →
      (∀ x ∈ ex.inventory, lower x = x) → (∀ x ∈ ex.palette, lower x = x) →
      ((CosmeticsExecutor.runCommands ex cmds).inventory.Nodup ∧
        (∀ x ∈ (CosmeticsExecutor.runCommands ex cmds).inventory, lower x = x) ∧
        (∀ x ∈ (CosmeticsExecutor.runCommands ex cmds).palette, lower x = x)) := by
  induction cmds with
  | nil => intro ex h1 h2 h3; exact ⟨h1, h2, h3⟩
  | cons a cmds ih =>
    intro ex h1 h2 h3
    have hstep := stepCommand_preserves_inv ex a h1 h2 h3
    exact ih (CosmeticsExecutor.stepCommand ex a) hstep.1 hstep.2.1 hstep.2.2

/-- C2 (amended): after any sequence of executed commands from a fresh
session, every inventory entry and every palette entry is lower-cased, and
the inventory contains no duplicate entry. (The palette, by contrast, may
contain duplicates — see the counterexample `palette_stores_duplicates`.) -/
theorem inventory_palette_normalized (lib : List CosmeticOutfit)
    (cmds : List ASTNode) :
    (CosmeticsExecutor.runCommands (initExecutor lib) cmds).inventory.Nodup ∧
      (∀ x ∈ (CosmeticsExecutor.runCommands (initExecutor lib) cmds).inventory,
        lower x = x) ∧
      (∀ x ∈ (CosmeticsExecutor.runCommands (initExecutor lib) cmds).palette,
        lower x = x) :=
  runCommands_preserves_inv cmds (initExecutor lib) List.nodup_nil
    (fun x hx => absurd hx (List.not_mem_nil x))
    (fun x hx => absurd hx (List.not_mem_nil x))

/-- C2 (amended) witness: a concrete two-command run. -/
theorem inventory_palette_normalized_witness :
    (CosmeticsExecutor.runCommands (initExecutor [])
        [⟨"add item", ["Jacket"]⟩, ⟨"color palette", ["Neon Blue"]⟩]).inventory.Nodup ∧
      (∀ x ∈ (CosmeticsExecutor.runCommands (initExecutor [])
        [⟨"add item", ["Jacket"]⟩, ⟨"color palette", ["Neon Blue"]⟩]).inventory,
        lower x = x) ∧
      (∀ x ∈ (CosmeticsExecutor.runCommands (initExecutor [])
        [⟨"add item", ["Jacket"]⟩, ⟨"color palette", ["Neon Blue"]⟩]).palette,
        lower x = x) :=
  inventory_palette_normalized []
    [⟨"add item", ["Jacket"]⟩, ⟨"color palette", ["Neon Blue"]⟩]
